import Mathlib

/-!
# Verification of the Snekmer feature/scoring core

Shallow embedding of the k-mer feature extraction and scoring core of the
Snekmer repository (`snekmer/vectorize.py`, `snekmer/score.py`,
`kmerfeatures/transform.py`, `kmerfeatures/score.py`), together with proofs
settling the specification claims about it.

Python data is modelled as follows: strings are `List Char` (wrapped in
`String` at the API where convenient), Python dicts that preserve insertion
order are association lists, numpy float arrays are `List ℚ` (the numeric
values arising here are exact small rationals), and Python exceptions are an
explicit `PyError` value in an `Except` result.
-/

set_option linter.unusedVariables false

deriving instance DecidableEq for Except

namespace Snekmer

/-- The Python exceptions the embedded code can raise, plus
`insufficientClasses`, the designed error named by the spec (which no code
path produces — it is included so that claims about it are statable). -/
inductive PyError where
  | typeError
  | valueError
  | keyError
  | indexError
  | zeroDivisionError
  | insufficientClasses
  deriving DecidableEq, Repr

/-! ## Python string primitives

Embeddings of the Python `str` operations the source uses, with Python's
documented semantics. -/

/-- Python slice `s[i : j]` for a non-negative start `i` and an arbitrary
stop `j`: a negative stop counts from the end (`len(s) + j`), and the
resulting range is clamped — empty when the effective stop is at or before
`i`, truncated at the end of the string otherwise.  The source only slices
with non-negative starts. -/
def pySlice (s : List Char) (i : Nat) (j : Int) : List Char :=
  let stop : Int := if j < 0 then (s.length : Int) + j else j
  if stop ≤ (i : Int) then [] else (s.drop i).take (stop - (i : Int)).toNat

/-- Python `str.find`: smallest index at which `sub` occurs as a substring of
`s`, or `-1` when it does not occur. -/
def pyFind (s sub : List Char) : Int :=
  match (List.range (s.length + 1 - sub.length)).find?
      (fun i => decide ((s.drop i).take sub.length = sub)) with
  | some i => (i : Int)
  | none => -1

/-- Python `str.rstrip("*")`: remove trailing `*` characters. -/
def pyRstripStar (s : List Char) : List Char :=
  (s.reverse.dropWhile (· = '*')).reverse

end Snekmer

/-! ## `snekmer/vectorize.py`: `KmerBasis.transform` -/

namespace Snekmer

/-- Last-wins index lookup: the dict comprehension
`{k: i for i, k in enumerate(vector_basis)}` maps each key to the index of
its **last** occurrence (later assignments overwrite earlier ones). -/
def lookupLastIdxAux (s : String) : List String → Nat → Option Nat → Option Nat
  | [], _, acc => acc
  | k :: rest, i, acc =>
      lookupLastIdxAux s rest (i + 1) (if k = s then some i else acc)

/-- Index of the last occurrence of `s` in `l` (`none` when absent), i.e. the
value stored for key `s` by `{k: i for i, k in enumerate(l)}`. -/
def lookupLastIdx (l : List String) (s : String) : Option Nat :=
  lookupLastIdxAux s l 0 none

/-- The dict `vector_basis_order = {k: i if k in self.basis else np.nan
for i, k in enumerate(vector_basis)}`.  Outer `none` = key absent
(a lookup raises `KeyError`); `some none` = the stored `np.nan`;
`some (some i)` = the stored index. -/
def vectorBasisOrder (basis vector_basis : List String) (s : String) :
    Option (Option Nat) :=
  if s ∈ vector_basis then
    some (if s ∈ basis then lookupLastIdx vector_basis s else none)
  else none

/-- The loop `for i in range(len(self.basis)): kmer = self.basis_order[i];
idx = vector_basis_order[kmer]; i_convert.append(idx)`.  A missing key
raises `KeyError`. -/
def convertIdxs (vbo : String → Option (Option Nat)) :
    List String → Except PyError (List (Option Nat))
  | [] => .ok []
  | k :: rest =>
      match vbo k with
      | none => .error .keyError
      | some v =>
          match convertIdxs vbo rest with
          | .error e => .error e
          | .ok vs => .ok (v :: vs)

/-- `KmerBasis.transform(vector, vector_basis)` for a 1-D `vector`, with the
fitted basis `self.basis` as first argument.  Mirrors
`snekmer/vectorize.py` lines 52–113: shape check (`ValueError`), the
`vector_basis_order` dict, the index-conversion loop (`KeyError` on a basis
k-mer absent from `vector_basis`), and the final fancy-indexing
`vector[i_convert]` (numpy raises `IndexError` if a stored `np.nan` ever
reached the index list). -/
def KmerBasis.transform (basis : List String) (vector : List ℚ)
    (vector_basis : List String) : Except PyError (List ℚ) :=
  if vector.length ≠ vector_basis.length then .error .valueError
  else
    match convertIdxs (vectorBasisOrder basis vector_basis) basis with
    | .error e => .error e
    | .ok idxs =>
        if idxs.any Option.isNone then .error .indexError
        else .ok (idxs.map (fun o => vector.getD (o.getD 0) 0))

end Snekmer

/-! ## `snekmer/vectorize.py`: `KmerSet`, `reduce`, `KmerVec` -/

namespace Snekmer

/-- `_generate(alphabet, k)`: all strings obtained by joining the tuples of
`itertools.product(alphabet, repeat=k)`, in product order (first position
varies slowest), as lists of characters. -/
def kmerProduct (alphabet : List Char) : Nat → List (List Char)
  | 0 => [[]]
  | n + 1 => alphabet.flatMap (fun c => (kmerProduct alphabet n).map (c :: ·))

/-- `_generate(alphabet, k)` joined into strings. -/
def generate (alphabet : List Char) (k : Nat) : List String :=
  (kmerProduct alphabet k).map (fun cs => String.mk cs)

/-- The `_kmerlist` attribute of `KmerSet(alphabet, k, kmerlist)`: when the
supplied `kmerlist` is empty the full combinatorial basis is generated,
otherwise the supplied list is used as-is.  `alphabet` stands for
`get_alphabet_keys(alphabet)` (the class-character set; `snekmer/alphabet.py`
is not part of the sources, so the character set is passed directly). -/
def KmerSet.kmerlist (alphabet : List Char) (k : Nat) (kmerlist : List String) :
    List String :=
  if kmerlist = [] then generate alphabet k else kmerlist

/-- `reduce(sequence, alphabet)` from `snekmer/vectorize.py` lines 149–171:
strip a trailing stop marker, then
`sequence.translate(sequence.maketrans(alphabet_map))`.  Python's
`str.translate` maps each character through the table and leaves characters
**without** a table entry unchanged.  `alphabet_map` stands for the
character→character dict returned by `get_alphabet` (whose source,
`snekmer/alphabet.py`, is not under the provided sources; the map is passed
directly). -/
def reduce (sequence : List Char) (alphabet_map : List (Char × Char)) :
    List Char :=
  (pyRstripStar sequence).map (fun c => (alphabet_map.lookup c).getD c)

/-- `KmerVec._kmer_gen(sequence)` (lines 211–221): the list of windows
`sequence[i : i+k]` for `i` from `0` while `i < len(sequence) - k + 1`,
keeping a window only when `set(kmer) <= self.char_set`. -/
def kmerGen (char_set : List Char) (k : Nat) (sequence : List Char) :
    List (List Char) :=
  ((List.range (sequence.length + 1 - k)).map
      (fun i => (sequence.drop i).take k)).filter
    (fun w => w.all (· ∈ char_set))

/-- `Counter(kmers)[word]`: the number of occurrences of `word`. -/
def counterGet (kmers : List (List Char)) (word : List Char) : Nat :=
  (kmers.filter (· = word)).length

/-- The loop `for i, word in enumerate(self.kmer_set.kmers):
vector[i] += kmer2count[word]`, where `vector` is a dict (association list).
The augmented assignment first reads `vector[i]`, raising `KeyError` when
key `i` is absent. -/
def vectorizeLoop (count : List Char → Nat) :
    List (Nat × String) → List (Nat × Nat) → Except PyError (List (Nat × Nat))
  | [], dict => .ok dict
  | (i, word) :: rest, dict =>
      match dict.lookup i with
      | none => .error .keyError
      | some v =>
          vectorizeLoop count rest
            (dict.map (fun p => if p.1 = i then (p.1, v + count word.toList) else p))

/-- `KmerVec.vectorize(sequence)` (lines 231–262): builds `kmer2count` from
`_kmer_gen`, initializes `vector = {}` (the "memfix change"), then runs the
increment loop over the enumerated kmer set.  The unused
`N = len(char_set) ** k` is omitted (it has no effect on the result). -/
def KmerVec.vectorize (char_set : List Char) (k : Nat)
    (kmer_set : List String) (sequence : List Char) :
    Except PyError (List (Nat × Nat)) :=
  let kmers := kmerGen char_set k sequence
  vectorizeLoop (counterGet kmers) (KmerSet.kmerlist char_set k kmer_set).enum []

end Snekmer

/-! ## `kmerfeatures/transform.py` -/

namespace Kmerfeatures

open Snekmer (PyError pySlice pyFind)

/-- `reduce_alphabet(character, mapping)`: scan the mapping's keys in dict
(insertion) order and return the value of the first key that contains the
character (`character in key` is substring membership); `None` when no key
contains it. -/
def reduce_alphabet (character : Char) (mapping : List (String × String)) :
    Option String :=
  match mapping.find? (fun p => character ∈ p.1.toList) with
  | some p => some p.2
  | none => none

/-- `map_characters(k_map, map_function, mapping)` with
`map_function = reduce_alphabet`: translate each character, skipping
(`continue`) characters that map to `None`, concatenating the rest. -/
def map_characters (k_map : List Char) (mapping : List (String × String)) :
    String :=
  k_map.foldl
    (fun acc c =>
      match reduce_alphabet c mapping with
      | none => acc
      | some m => acc ++ m) ""

/-- `exclude_from_string(k_string, exclude)` (lines 274–298): `False` for an
empty exclusion list (falsy), otherwise `True` exactly when some forbidden
substring is found with `k_string.find(bit) > 0`. -/
def exclude_from_string (k_string : String) (exclude : List String) : Bool :=
  match exclude with
  | [] => false
  | _ => exclude.any (fun bit => 0 < pyFind k_string.toList bit.toList)

/-- One iteration of the `vectorize_string` window loop at offset `i`:
slice `sequence[i : i+k]`, map it to the reduced alphabet, drop it when the
mapped string is shorter than `k` (unrecognized characters) or when the
exclusion policy matches, and otherwise increment its count in the results
dict (initializing a missing key to 0 first). -/
def vectorizeStringStep (seq : List Char) (k : Int)
    (mapping : List (String × String)) (exclude : List String)
    (results : List (String × Nat)) (i : Nat) : List (String × Nat) :=
  let k_map := pySlice seq i ((i : Int) + k)
  let k_string := map_characters k_map mapping
  if (k_string.length : Int) < k then results
  else if exclude_from_string k_string exclude then results
  else if (results.lookup k_string).isSome then
    results.map (fun p => if p.1 = k_string then (p.1, p.2 + 1) else p)
  else results ++ [(k_string, 1)]

/-- `vectorize_string(sequence, k, ...)` (lines 301–393) with the default
`start=0`, `end=False`, `feature_dict=None`, `filter_list=None` and a
list-form `map_function` carrying `mapping` (so `map_function` resolves to
`reduce_alphabet`).  `set_sequence_endpoints` yields `start = 0` and
`end = len(sequence) - k`, and the loop runs `for i in range(start, end)`.
The result is the `results` dict; the function's return forms
(`results` itself or `list(results.values())`) are both derived from it. -/
def vectorize_string (sequence : String) (k : Int)
    (mapping : List (String × String)) (exclude : List String) :
    List (String × Nat) :=
  let seq := sequence.toList
  (List.range ((seq.length : Int) - k).toNat).foldl
    (vectorizeStringStep seq k mapping exclude) []

/-- Sum of the counts in a sparse result dict
(`sum(results.values())`). -/
def sumValues (results : List (String × Nat)) : Nat :=
  (results.map (·.2)).sum

end Kmerfeatures

/-! ## `snekmer/score.py`: `feature_class_probabilities` -/

namespace Snekmer

/-- `_binarize(feature_matrix)`: `(feature_matrix > 0) * 1.0`. -/
def _binarize (M : List (List ℚ)) : List (List ℚ) :=
  M.map (fun row => row.map (fun x => if 0 < x then (1 : ℚ) else 0))

/-- `_kmer_presence_probability(feature_matrix, label_match, weight)`
(lines 132–165): binarize, then per kmer row compute
`match = kmer_match * label_match * ones`, `presence = sum(match)`,
`probability = sum(match) * weight` (the multiplication by `np.ones` is the
identity and is folded away). -/
def _kmer_presence_probability (M : List (List ℚ)) (label_match : List Bool)
    (weight : ℚ) : List ℚ × List ℚ :=
  let B := _binarize M
  let presence := B.map (fun kmer =>
    ((kmer.zip label_match).map
        (fun p => (if p.1 = 1 then (1 : ℚ) else 0) *
          (if p.2 then (1 : ℚ) else 0))).sum)
  (presence, presence.map (· * weight))

/-- Code-point lexicographic order on strings (the order numpy sorts string
labels by). -/
def charListLe : List Char → List Char → Bool
  | [], _ => true
  | _ :: _, [] => false
  | a :: as, b :: bs => if a = b then charListLe as bs else decide (a < b)

/-- Insert a string into a sorted list of strings. -/
def insertSorted (s : String) : List String → List String
  | [] => [s]
  | x :: xs =>
      if charListLe s.toList x.toList then s :: x :: xs else x :: insertSorted s xs

/-- `np.unique(labels)`: the distinct labels in sorted order. -/
def npUnique (l : List String) : List String :=
  l.dedup.foldr insertSorted []

/-- `np.sum(vs, axis=0)` for a list of equal-length vectors of length `n`. -/
def sumVecs (n : Nat) (vs : List (List ℚ)) : List ℚ :=
  vs.foldr (fun v acc => List.zipWith (· + ·) v acc) (List.replicate n 0)

/-- The `method` parameter of `feature_class_probabilities`; the code
rejects any string outside these three with a `ValueError`, so only the
valid values are modelled. -/
inductive ScoreMethod where
  | default
  | bg_only
  | both
  deriving DecidableEq, Repr

/-- One per-label row of the `results` mapping: the arrays stored under
`'kmer'`, `'count'`, `'probability'` and `'score'`.  The `count` entries are
exact non-negative integers held as rationals (the code's `dtype=int` cast
is value-preserving on them). -/
structure LabelScore where
  kmer : List Nat
  count : List ℚ
  probability : List ℚ
  score : List ℚ
  deriving DecidableEq, Repr

/-- `feature_class_probabilities(feature_matrix, labels, kmers=None, method,
bg)` (`snekmer/score.py` lines 168–269), up to the final pandas long-form
reshaping: the result is the per-label `results` mapping, keyed by the
distinct labels.  Checks in source order: the background requirement
(`ValueError`), the default `kmers = np.arange(len(feature_matrix))` (whose
own length check then always passes), the column/label shape check
(`ValueError`), the per-label presence/probability loop with
`weight = 1 / n_sequences[i]`, then `weight = 1 / (len(np.unique(labels)) - 1)`
— which raises `ZeroDivisionError` when there is exactly one distinct label —
and finally `score = probability - sum(other probabilities) * weight`.
The `bg` argument is never read after its presence check. -/
def feature_class_probabilities (M : List (List ℚ)) (labels : List String)
    (method : ScoreMethod) (bg : Option (List ℚ)) :
    Except PyError (List (String × LabelScore)) :=
  if (method = .bg_only ∨ method = .both) ∧ bg = none then .error .valueError
  else if (M.headD []).length ≠ labels.length then .error .valueError
  else
    let uniq := npUnique labels
    let n_sequences := uniq.map (fun l => (labels.filter (fun s => s = l)).length)
    let rows := (uniq.zip n_sequences).map (fun p =>
      let label_match := labels.map (fun s => decide (s = p.1))
      let weight : ℚ := 1 / (p.2 : ℚ)
      let pp := _kmer_presence_probability M label_match weight
      (p.1, pp.1, pp.2))
    if uniq.length = 1 then .error .zeroDivisionError
    else
      let weight : ℚ := 1 / ((uniq.length : ℚ) - 1)
      .ok (rows.map (fun r =>
        let others := rows.filter (fun r2 => r2.1 ≠ r.1)
        let osum := sumVecs M.length (others.map (fun r2 => r2.2.2))
        (r.1,
          { kmer := List.range M.length
            count := r.2.1
            probability := r.2.2
            score := List.zipWith (fun p s => p - s * weight) r.2.2 osum })))

end Snekmer

/-! ## Spec-side definitions

Definitions that follow the specification's words, for comparison with the
source embeddings above.  They are used only on the spec side of refinement
statements. -/

namespace SnekmerSpec

open Snekmer

/-- Modelled from the spec: `presence_L[k]` — the number of columns assigned
to label `L` in which kmer row `k` is present (entry `> 0`). -/
def specPresence (row : List ℚ) (labels : List String) (L : String) : Nat :=
  ((row.zip labels).filter (fun p => decide (0 < p.1) && decide (p.2 = L))).length

/-- Modelled from the spec: `n_L` — the number of columns assigned to `L`. -/
def specNL (labels : List String) (L : String) : Nat :=
  (labels.filter (fun s => s = L)).length

/-- Modelled from the spec: `probability_L[k] = presence_L[k] / n_L`. -/
def specProb (row : List ℚ) (labels : List String) (L : String) : ℚ :=
  (specPresence row labels L : ℚ) / (specNL labels L : ℚ)

/-- Modelled from the spec: the per-label score table under method
`default` — for each distinct label `L`,
`score[k] = probability_L[k] − weight × Σ_{other labels O} probability_O[k]`
with `weight = 1 / (number_of_distinct_labels − 1)`. -/
def specScoreTable (M : List (List ℚ)) (labels : List String) :
    List (String × LabelScore) :=
  let uniq := npUnique labels
  let w : ℚ := 1 / ((uniq.length : ℚ) - 1)
  uniq.map (fun L =>
    (L,
      { kmer := List.range M.length
        count := M.map (fun row => (specPresence row labels L : ℚ))
        probability := M.map (fun row => specProb row labels L)
        score := M.map (fun row =>
          specProb row labels L -
            w * ((uniq.filter (fun O => O ≠ L)).map
              (fun O => specProb row labels O)).sum) }))

/-- Modelled from the spec: the number of offsets `i` from `0` to
`len(s) - k` inclusive whose length-`k` window consists entirely of
characters of the alphabet's class set. -/
def specValidWindowCount (class_set : List Char) (k : Nat) (s : List Char) :
    Nat :=
  ((List.range (s.length - k + 1)).filter
      (fun i => ((s.drop i).take k).all (· ∈ class_set))).length

end SnekmerSpec

/-! ## Sanity checks

Concrete evaluations of the embeddings, including the spec's §8 scenarios.
-/

section SanityChecks

open Snekmer

example : KmerBasis.transform ["AA", "AC"] [5] ["AA"] = .error .keyError := by
  decide

example : KmerBasis.transform ["AA", "AC"] [5, 7] ["AA", "AC"] = .ok [5, 7] := by
  decide

example :
    KmerBasis.transform ["AC", "AA"] [5, 7] ["AA", "AC"] = .ok [7, 5] := by
  decide

-- the roundtrip needs a deduplicated basis: with a duplicate entry the
-- last-wins dict sends both occurrences to the last index
example :
    KmerBasis.transform ["AA", "AA"] [1, 2] ["AA", "AA"] = .ok [2, 2] := by
  decide

-- spec §8 concrete scenario: "AACAC", k=2 over {"A","C"}
example : kmerGen ['A', 'C'] 2 "AACAC".toList =
    [['A', 'A'], ['A', 'C'], ['C', 'A'], ['A', 'C']] := by decide

-- vectorize_string misses the final window ("AC" at offset 3)
example : Kmerfeatures.vectorize_string "AACAC" 2 [("A", "A"), ("C", "C")] [] =
    [("AA", 1), ("AC", 1), ("CA", 1)] := by decide

-- exclude policy misses matches at position 0
example : Kmerfeatures.exclude_from_string "ABC" ["AB"] = false := by decide
example : Kmerfeatures.exclude_from_string "ZABC" ["AB"] = true := by decide

-- k = 0: no error, counts empty windows
example : Kmerfeatures.vectorize_string "AB" 0 [("A", "A"), ("B", "B")] [] =
    [("", 2)] := by decide

-- Python negative slice stop counts from the end: "ABC"[0:-1] = "AB"
example : pySlice "ABC".toList 0 (-1) = "AB".toList := by decide

-- k = -1: offsets with i + k < 0 slice a real window ("ABC"[0:-1] = "AB",
-- mapped to "A"), the rest give ""
example : Kmerfeatures.vectorize_string "ABC" (-1) [("A", "A")] [] =
    [("A", 1), ("", 3)] := by decide

-- reduce keeps unmapped characters
example : reduce "AXA".toList [('A', 'A'), ('C', 'C')] = "AXA".toList := by
  decide

-- map_characters drops unmapped characters
example : Kmerfeatures.map_characters "AXA".toList [("A", "A"), ("C", "C")] =
    "AA" := by decide

-- KmerVec.vectorize: KeyError on a nonempty kmer set, empty dict otherwise
example : KmerVec.vectorize ['A', 'C'] 2 ["AA", "AC", "CA", "CC"]
    "AACAC".toList = .error .keyError := by decide
example : KmerVec.vectorize ['A', 'C'] 2 [] "AACAC".toList =
    .error .keyError := by decide
example : KmerVec.vectorize [] 1 [] "AACAC".toList = .ok [] := by decide

-- spec §8 concrete scoring scenario
example :
    feature_class_probabilities [[1, 0], [0, 1]] ["fam", "other"]
        .default none =
      .ok [("fam", ⟨[0, 1], [1, 0], [1, 0], [1, -1]⟩),
        ("other", ⟨[0, 1], [0, 1], [0, 1], [-1, 1]⟩)] := by
  have h1 : npUnique ["fam", "other"] = ["fam", "other"] := by decide
  simp [feature_class_probabilities, h1, _kmer_presence_probability,
    _binarize, sumVecs]
  norm_num
  all_goals decide

example :
    feature_class_probabilities [[1, 0], [0, 1]] ["fam", "other"]
        .bg_only (some [1, 1]) =
      feature_class_probabilities [[1, 0], [0, 1]] ["fam", "other"]
        .default none := by
  have h1 : npUnique ["fam", "other"] = ["fam", "other"] := by decide
  simp [feature_class_probabilities, h1, _kmer_presence_probability,
    _binarize, sumVecs]

example :
    feature_class_probabilities [[1]] ["fam"] .default none =
      .error .zeroDivisionError := by
  have h1 : npUnique ["fam"] = ["fam"] := by decide
  norm_num [feature_class_probabilities, h1]
  all_goals decide

example :
    SnekmerSpec.specScoreTable [[1, 0], [0, 1]] ["fam", "other"] =
      [("fam", ⟨[0, 1], [1, 0], [1, 0], [1, -1]⟩),
        ("other", ⟨[0, 1], [0, 1], [0, 1], [-1, 1]⟩)] := by
  have h1 : npUnique ["fam", "other"] = ["fam", "other"] := by decide
  simp [SnekmerSpec.specScoreTable, h1, SnekmerSpec.specProb,
    SnekmerSpec.specPresence, SnekmerSpec.specNL]
  norm_num
  all_goals decide

example : SnekmerSpec.specValidWindowCount ['A', 'C'] 2 "AACAC".toList = 4 := by
  decide

end SanityChecks

/-! ## Helper lemmas -/

namespace Snekmer

theorem lookupLastIdxAux_not_mem {s : String} :
    ∀ (l : List String) (i : Nat) (acc : Option Nat), s ∉ l →
      lookupLastIdxAux s l i acc = acc
  | [], _, _, _ => rfl
  | k :: rest, i, acc, h => by
      have hk : ¬(k = s) := fun he => (List.ne_of_not_mem_cons h) he.symm
      simp only [lookupLastIdxAux, if_neg hk]
      exact lookupLastIdxAux_not_mem rest (i + 1) acc (List.not_mem_of_not_mem_cons h)

theorem lookupLastIdxAux_append {s : String} :
    ∀ (l1 l2 : List String) (i : Nat), s ∉ l1 → s ∉ l2 →
      lookupLastIdxAux s (l1 ++ s :: l2) i none = some (i + l1.length)
  | [], l2, i, _, h2 => by
      have hstep : lookupLastIdxAux s (s :: l2) i none =
          lookupLastIdxAux s l2 (i + 1) (some i) := by
        simp [lookupLastIdxAux]
      rw [List.nil_append, hstep, lookupLastIdxAux_not_mem l2 (i + 1) (some i) h2]
      simp
  | k :: l1', l2, i, h1, h2 => by
      have hk : ¬(k = s) := fun he => (List.ne_of_not_mem_cons h1) he.symm
      have hstep : lookupLastIdxAux s ((k :: l1') ++ s :: l2) i none =
          lookupLastIdxAux s (l1' ++ s :: l2) (i + 1) none := by
        simp [lookupLastIdxAux, hk]
      rw [hstep,
        lookupLastIdxAux_append l1' l2 (i + 1) (List.not_mem_of_not_mem_cons h1) h2]
      congr 1
      simp only [List.length_cons]
      omega

theorem lookupLastIdx_nodup {l : List String} (hnd : l.Nodup) {i : Nat}
    (hi : i < l.length) : lookupLastIdx l l[i] = some i := by
  have hsplit : l = l.take i ++ l[i] :: l.drop (i + 1) := by
    rw [← List.drop_eq_getElem_cons hi, List.take_append_drop]
  have hnd2 : (l.take i ++ l[i] :: l.drop (i + 1)).Nodup := hsplit ▸ hnd
  obtain ⟨-, hcons, hdisj⟩ := List.nodup_append.mp hnd2
  have hnt : l[i] ∉ l.take i := fun hmem => hdisj hmem (List.mem_cons_self _ _)
  have hnd3 : l[i] ∉ l.drop (i + 1) := (List.nodup_cons.mp hcons).1
  calc lookupLastIdx l l[i]
      = lookupLastIdxAux l[i] (l.take i ++ l[i] :: l.drop (i + 1)) 0 none := by
        rw [lookupLastIdx]; exact congrArg (fun t => lookupLastIdxAux l[i] t 0 none) hsplit
    _ = some (0 + (l.take i).length) := lookupLastIdxAux_append _ _ 0 hnt hnd3
    _ = some i := by simp [List.length_take]; omega

theorem lookupLastIdxAux_isSome {s : String} :
    ∀ (l : List String) (i : Nat) (acc : Option Nat),
      s ∈ l ∨ acc.isSome → (lookupLastIdxAux s l i acc).isSome
  | [], _, acc, h => by
      rcases h with h | h
      · exact absurd h (List.not_mem_nil s)
      · exact h
  | k :: rest, i, acc, h => by
      simp only [lookupLastIdxAux]
      by_cases hk : k = s
      · exact lookupLastIdxAux_isSome rest (i + 1) _ (Or.inr (by simp [hk]))
      · rcases h with h | h
        · rcases List.mem_cons.mp h with h' | h'
          · exact absurd h'.symm hk
          · exact lookupLastIdxAux_isSome rest (i + 1) _ (Or.inl h')
        · exact lookupLastIdxAux_isSome rest (i + 1) _ (Or.inr (by simp [hk, h]))

theorem lookupLastIdx_isSome_of_mem {l : List String} {s : String} (h : s ∈ l) :
    (lookupLastIdx l s).isSome :=
  lookupLastIdxAux_isSome l 0 none (Or.inl h)

theorem convertIdxs_of_forall {vbo : String → Option (Option Nat)}
    {g : String → Option Nat} :
    ∀ (l : List String), (∀ k ∈ l, vbo k = some (g k)) →
      convertIdxs vbo l = .ok (l.map g)
  | [], _ => rfl
  | k :: rest, h => by
      simp only [convertIdxs, h k (List.mem_cons_self _ _),
        convertIdxs_of_forall rest (fun k' hk' => h k' (List.mem_cons_of_mem _ hk'))]
      rfl

end Snekmer

/-! ## Claim theorems -/

open Snekmer Kmerfeatures SnekmerSpec

/-- **C1.** The claim asserts that `KmerBasis.transform` (the basis aligner)
fills a target k-mer absent from the source order with the value 0.  The
code instead looks the missing k-mer up in the `vector_basis_order` dict and
raises `KeyError`: with fitted basis `["AA", "AC"]`, input vector `[5]` and
source order `["AA"]`, the aligned result is a `KeyError`, not a vector
with a zero in the `"AC"` slot. -/
theorem c1_transform_missing_target_kmer_keyerror :
    KmerBasis.transform ["AA", "AC"] [5] ["AA"] = .error .keyError := by
  decide

/-- **C2.** The claim (and the spec's window rule) counts windows at every
offset from 0 to `len(s) - k` inclusive.  On `s = "AACAC"`, `k = 2` over
alphabet `{A, C}` there are 4 such windows (`AA`, `AC`, `CA`, `AC`) — as
`KmerVec._kmer_gen` (the snekmer rewrite) correctly enumerates — but
`vectorize_string` iterates `range(start, end)` with `end = len(s) - k`,
skipping the final offset, so its sparse output sums to 3. -/
theorem c2_vectorize_string_misses_final_window :
    sumValues (vectorize_string "AACAC" 2 [("A", "A"), ("C", "C")] []) = 3 ∧
      specValidWindowCount ['A', 'C'] 2 "AACAC".toList = 4 ∧
      (kmerGen ['A', 'C'] 2 "AACAC".toList).length = 4 := by
  refine ⟨by decide, by decide, by decide⟩

/-- **C7.** The claim asserts a k-mer is discarded when it contains a
forbidden substring at any position, including position 0.  The code tests
`k_string.find(bit) > 0`, so a forbidden substring whose match starts at
index 0 is missed: `"ABC"` containing `"AB"` at index 0 is not excluded
(and the k-mer `"ABC"` is counted by `vectorize_string`), while the same
substring at index 1 of `"ZABC"` is excluded. -/
theorem c7_exclusion_misses_position_zero :
    exclude_from_string "ABC" ["AB"] = false ∧
      pyFind "ABC".toList "AB".toList = 0 ∧
      exclude_from_string "ZABC" ["AB"] = true ∧
      vectorize_string "ABCD" 3
          [("A", "A"), ("B", "B"), ("C", "C"), ("D", "D")] ["AB"] =
        [("ABC", 1)] := by
  refine ⟨by decide, by decide, by decide, by decide⟩

/-- **C10.** `KmerVec.vectorize` initializes the count accumulator as an
empty dict and executes `vector[i] += kmer2count[word]`, whose read of
`vector[i]` raises `KeyError` on the very first kmer of a non-empty
configured kmer set; when the configured set is empty the loop body never
runs and the empty dict is returned. -/
theorem c10_vectorize_keyerror_iff_nonempty_kmer_set (char_set : List Char)
    (k : Nat) (kmer_set : List String) (sequence : List Char) :
    KmerVec.vectorize char_set k kmer_set sequence =
      if KmerSet.kmerlist char_set k kmer_set = [] then .ok []
      else .error .keyError := by
  unfold KmerVec.vectorize
  cases h : KmerSet.kmerlist char_set k kmer_set with
  | nil => simp [h, List.enum, vectorizeLoop]
  | cons a rest => simp [h, List.enum_cons, vectorizeLoop, List.lookup]

/-- **C9.** Aligning a vector with the same (duplicate-free) basis as both
the fitted target and the source order returns the vector unchanged:
`transform(v, b)` with fitted basis `b` maps every basis k-mer to its own
index, so the fancy-indexing permutation is the identity. -/
theorem c9_transform_roundtrip (basis : List String) (vector : List ℚ)
    (hnd : basis.Nodup) (hlen : vector.length = basis.length) :
    KmerBasis.transform basis vector basis = .ok vector := by
  unfold KmerBasis.transform
  rw [if_neg (by omega)]
  have hvbo : ∀ k ∈ basis, vectorBasisOrder basis basis k =
      some (lookupLastIdx basis k) := by
    intro k hk
    simp [vectorBasisOrder, hk]
  rw [convertIdxs_of_forall basis hvbo]
  have hnone : (basis.map (lookupLastIdx basis)).any Option.isNone = false := by
    rw [List.any_eq_false]
    intro o ho
    obtain ⟨k, hk, rfl⟩ := List.mem_map.mp ho
    obtain ⟨v, hv⟩ := Option.isSome_iff_exists.mp (lookupLastIdx_isSome_of_mem hk)
    simp [hv]
  simp only [hnone, Bool.false_eq_true, if_false, List.map_map]
  congr 1
  apply List.ext_getElem
  · simp [hlen]
  · intro i h1 h2
    have hib : i < basis.length := by simpa using h1
    simp only [List.getElem_map, Function.comp]
    rw [lookupLastIdx_nodup hnd hib]
    simp only [Option.getD_some]
    exact List.getD_eq_getElem vector 0 h2

/-- Witness for C9 at a concrete basis and vector. -/
theorem c9_transform_roundtrip_witness :
    (["AA", "AC"] : List String).Nodup ∧ ([5, 7] : List ℚ).length = 2 ∧
      KmerBasis.transform ["AA", "AC"] [5, 7] ["AA", "AC"] = .ok [5, 7] :=
  ⟨by decide, by decide,
    c9_transform_roundtrip ["AA", "AC"] [5, 7] (by decide) (by decide)⟩

/-- **C4.** The claim asserts the `background` argument enters the score for
methods `bg_only` and `both`.  In the code `bg` is only checked for
presence and never read again, so both methods return the `default` score:
on the spec's own scenario (matrix `[[1,0],[0,1]]`, labels
`["fam","other"]`, `bg = [1,1]`) the `"fam"` score row is `[1, -1]` — the
claim's `bg_only` formula would give `[0, -1]`. -/
theorem c4_background_argument_ignored :
    feature_class_probabilities [[1, 0], [0, 1]] ["fam", "other"]
        .bg_only (some [1, 1]) =
      feature_class_probabilities [[1, 0], [0, 1]] ["fam", "other"]
        .default none ∧
    feature_class_probabilities [[1, 0], [0, 1]] ["fam", "other"]
        .both (some [1, 1]) =
      feature_class_probabilities [[1, 0], [0, 1]] ["fam", "other"]
        .default none ∧
    feature_class_probabilities [[1, 0], [0, 1]] ["fam", "other"]
        .bg_only (some [1, 1]) =
      .ok [("fam", ⟨[0, 1], [1, 0], [1, 0], [1, -1]⟩),
        ("other", ⟨[0, 1], [0, 1], [0, 1], [-1, 1]⟩)] := by
  refine ⟨rfl, rfl, ?_⟩
  have h1 : npUnique ["fam", "other"] = ["fam", "other"] := by decide
  simp [feature_class_probabilities, h1, _kmer_presence_probability,
    _binarize, sumVecs]
  norm_num
  all_goals decide

/-- Counterexample for C5: on a single-class input the scorer fails with
`ZeroDivisionError` (from `weight = 1 / (len(np.unique(labels)) - 1)`), not
with a designed `InsufficientClasses` error. -/
theorem c5_single_class_counterexample :
    feature_class_probabilities [[1]] ["fam"] .default none =
        .error .zeroDivisionError ∧
      (Except.error PyError.zeroDivisionError :
          Except PyError (List (String × LabelScore))) ≠
        .error .insufficientClasses := by
  constructor
  · have h1 : npUnique ["fam"] = ["fam"] := by decide
    norm_num [feature_class_probabilities, h1]
    all_goals decide
  · decide

/-- **C5 (amended).** For every feature matrix and label vector with exactly
one distinct label (and matching column count), the scorer fails — but with
an uncontrolled `ZeroDivisionError` from computing `1 / (1 - 1)`, not with a
designed `InsufficientClasses` error. -/
theorem c5_single_class_zero_division (M : List (List ℚ)) (labels : List String)
    (h1 : (npUnique labels).length = 1)
    (h2 : (M.headD []).length = labels.length) :
    feature_class_probabilities M labels .default none =
      .error .zeroDivisionError := by
  have h2' : (M.head?.getD []).length = labels.length := by
    cases M with
    | nil => simpa using h2
    | cons a t => simpa using h2
  simp [feature_class_probabilities, h1, h2']

/-- Witness for the amended C5 at a concrete single-class input. -/
theorem c5_single_class_zero_division_witness :
    (npUnique ["fam"]).length = 1 ∧
      (([[1]] : List (List ℚ)).headD []).length = (["fam"] : List String).length ∧
      feature_class_probabilities [[1]] ["fam"] .default none =
        .error .zeroDivisionError :=
  ⟨by decide, by decide,
    c5_single_class_zero_division [[1]] ["fam"] (by decide) (by decide)⟩

/-- Counterexample for C6: `snekmer.vectorize.reduce` translates via
`str.translate`, which leaves characters without a mapping unchanged — on
`"AXA"` with the mapping `{A: A, C: C}` (the spec's §8 example alphabet),
the unmapped `'X'` is kept, so the output is not restricted to mapped
characters.  Dropping of unmapped characters happens only in
`kmerfeatures.transform.map_characters`. -/
theorem c6_reduce_keeps_unmapped_counterexample :
    reduce "AXA".toList [('A', 'A'), ('C', 'C')] = "AXA".toList ∧
      List.lookup 'X' [('A', 'A'), ('C', 'C')] = none ∧
      'X' ∈ reduce "AXA".toList [('A', 'A'), ('C', 'C')] ∧
      map_characters "AXA".toList [("A", "A"), ("C", "C")] = "AA" := by
  refine ⟨by decide, by decide, by decide, by decide⟩

/-- **C6 (amended).** `reduce` translates each character that has a mapping
and keeps each character with no mapping unchanged, preserving the length of
the (trailing-`*`-stripped) input — it does not drop unmapped characters. -/
theorem c6_reduce_translates_keeping_unmapped (s : List Char)
    (m : List (Char × Char)) :
    (reduce s m).length = (pyRstripStar s).length ∧
      ∀ i, i < (pyRstripStar s).length →
        (reduce s m).getD i 'A' =
          (m.lookup ((pyRstripStar s).getD i 'A')).getD
            ((pyRstripStar s).getD i 'A') := by
  constructor
  · simp [reduce]
  · intro i hi
    have hi' : i < (reduce s m).length := by simpa [reduce] using hi
    rw [List.getD_eq_getElem _ _ hi', List.getD_eq_getElem _ _ hi]
    simp [reduce]

/-- Witness for the amended C6: position 1 of `"AXA*"` holds the unmapped
`'X'`, which survives unchanged. -/
theorem c6_reduce_translates_keeping_unmapped_witness :
    1 < (pyRstripStar "AXA*".toList).length ∧
      (reduce "AXA*".toList [('A', 'A')]).getD 1 'A' =
        (([('A', 'A')] : List (Char × Char)).lookup
            ((pyRstripStar "AXA*".toList).getD 1 'A')).getD
          ((pyRstripStar "AXA*".toList).getD 1 'A') :=
  ⟨by decide,
    (c6_reduce_translates_keeping_unmapped "AXA*".toList [('A', 'A')]).2 1
      (by decide)⟩

/-- Counterexample for C8: `vectorize_string` performs no validation of `k`;
at `k = 0` it returns a vector (counting the empty window at each offset)
instead of failing with a designed `InvalidParameter` error. -/
theorem c8_nonpositive_k_counterexample :
    vectorize_string "AB" 0 [("A", "A"), ("B", "B")] [] = [("", 2)] := by
  decide

/-- A key occurring among a dict's keys has a successful lookup. -/
theorem lookup_isSome_of_mem_keys :
    ∀ {l : List (String × Nat)} {s : String},
      s ∈ l.map Prod.fst → (l.lookup s).isSome
  | [], s, h => by simp at h
  | (k1, v1) :: t, s, h => by
      by_cases he : s = k1
      · simp [List.lookup, he]
      · have hbeq : (s == k1) = false := by
          simp only [beq_eq_false_iff_ne, ne_eq]
          exact he
        have hm : s ∈ t.map Prod.fst := by
          rw [List.map_cons] at h
          rcases List.mem_cons.mp h with h' | h'
          · exact absurd h' he
          · exact h'
        simpa [List.lookup, hbeq] using lookup_isSome_of_mem_keys hm

/-- Incrementing a key that is absent from a dict changes nothing. -/
theorem map_bump_id {str : String} :
    ∀ {l : List (String × Nat)}, (∀ p ∈ l, p.1 ≠ str) →
      l.map (fun p => if p.1 = str then (p.1, p.2 + 1) else p) = l
  | [], _ => rfl
  | a :: t, h => by
      rw [List.map_cons, if_neg (h a (List.mem_cons_self _ _)),
        map_bump_id (fun p hp => h p (List.mem_cons_of_mem _ hp))]

/-- Incrementing a present key of a duplicate-free dict raises the total
count by exactly one. -/
theorem sumValues_increment :
    ∀ {l : List (String × Nat)} {str : String},
      (l.map Prod.fst).Nodup → (l.lookup str).isSome →
      sumValues (l.map (fun p => if p.1 = str then (p.1, p.2 + 1) else p)) =
        sumValues l + 1
  | [], str, _, h => by simp [List.lookup] at h
  | (k1, v1) :: t, str, hnd, h => by
      have hnd' : k1 ∉ t.map Prod.fst ∧ (t.map Prod.fst).Nodup := by
        simpa using hnd
      by_cases hk : k1 = str
      · have hnot : ∀ p ∈ t, p.1 ≠ str := by
          intro p hp he
          exact hnd'.1 (by
            rw [hk, ← he]
            exact List.mem_map_of_mem Prod.fst hp)
        simp [sumValues, hk, map_bump_id hnot]
        omega
      · have hbeq : (str == k1) = false := by
          simp only [beq_eq_false_iff_ne, ne_eq]
          exact fun he => hk he.symm
        have h' : (t.lookup str).isSome := by simpa [List.lookup, hbeq] using h
        have ih := sumValues_increment hnd'.2 h'
        simp only [List.map_cons, if_neg hk, sumValues, List.sum_cons] at ih ⊢
        omega

/-- The dict update `if k_string not in results: results[k_string] = 0;
results[k_string] += 1` adds exactly one to the total count. -/
theorem sumValues_bump (l : List (String × Nat)) (str : String)
    (hnd : (l.map Prod.fst).Nodup) :
    sumValues (if (l.lookup str).isSome then
        l.map (fun p => if p.1 = str then (p.1, p.2 + 1) else p)
      else l ++ [(str, 1)]) = sumValues l + 1 := by
  by_cases h : (l.lookup str).isSome
  · rw [if_pos h]
    exact sumValues_increment hnd h
  · rw [if_neg h]
    simp [sumValues]

/-- The dict update preserves duplicate-freeness of the keys. -/
theorem keys_nodup_bump (l : List (String × Nat)) (str : String)
    (hnd : (l.map Prod.fst).Nodup) :
    ((if (l.lookup str).isSome then
        l.map (fun p => if p.1 = str then (p.1, p.2 + 1) else p)
      else l ++ [(str, 1)]).map Prod.fst).Nodup := by
  by_cases h : (l.lookup str).isSome
  · rw [if_pos h, List.map_map]
    have hfst : (Prod.fst ∘ fun p : String × Nat =>
        if p.1 = str then (p.1, p.2 + 1) else p) = Prod.fst := by
      funext p
      by_cases hp : p.1 = str <;> simp [hp]
    rw [hfst]
    exact hnd
  · rw [if_neg h, List.map_append]
    have hnot : str ∉ l.map Prod.fst := fun hm => h (lookup_isSome_of_mem_keys hm)
    simp [List.nodup_append, hnd, hnot]

/-- With `k ≤ 0` the length filter (`len(k_string) < k`) and the empty
exclusion list never reject a window, so each loop iteration performs
exactly the insert-or-increment dict update on the mapped window string. -/
theorem vectorizeStringStep_nonpos {seq : List Char} {k : Int}
    {m : List (String × String)} (hk : k ≤ 0) (results : List (String × Nat))
    (i : Nat) :
    vectorizeStringStep seq k m [] results i =
      (if (results.lookup (map_characters (pySlice seq i ((i : Int) + k)) m)).isSome
        then results.map (fun p =>
          if p.1 = map_characters (pySlice seq i ((i : Int) + k)) m then
            (p.1, p.2 + 1)
          else p)
        else results ++ [(map_characters (pySlice seq i ((i : Int) + k)) m, 1)]) := by
  simp only [vectorizeStringStep]
  rw [if_neg (by omega)]
  rfl

/-- The `vectorize_string` loop with `k ≤ 0`: keys stay duplicate-free and
every iteration adds exactly one to the total count. -/
theorem vectorizeString_fold_sum {seq : List Char} {k : Int}
    {m : List (String × String)} (hk : k ≤ 0) :
    ∀ (n : Nat) (results : List (String × Nat)),
      (results.map Prod.fst).Nodup →
      ((((List.range n).foldl (vectorizeStringStep seq k m []) results).map
          Prod.fst).Nodup ∧
        sumValues ((List.range n).foldl (vectorizeStringStep seq k m []) results) =
          sumValues results + n)
  | 0, results, hnd => ⟨hnd, by simp⟩
  | n + 1, results, hnd => by
      have ih := @vectorizeString_fold_sum seq k m hk n results hnd
      rw [List.range_succ, List.foldl_append]
      simp only [List.foldl_cons, List.foldl_nil]
      rw [vectorizeStringStep_nonpos hk]
      constructor
      · exact keys_nodup_bump _ _ ih.1
      · rw [sumValues_bump _ _ ih.1, ih.2]
        omega

/-- With `k = 0` every window slice `s[i : i]` is empty, so each iteration
bumps the count of the empty string. -/
theorem vectorizeStringStep_zero {seq : List Char}
    {m : List (String × String)} (results : List (String × Nat)) (i : Nat) :
    vectorizeStringStep seq 0 m [] results i =
      if (results.lookup "").isSome then
        results.map (fun p => if p.1 = "" then (p.1, p.2 + 1) else p)
      else results ++ [("", 1)] := by
  have hsl : pySlice seq i ((i : Int) + 0) = [] := by
    simp only [pySlice]
    rw [if_neg (show ¬((i : Int) + 0 < 0) by omega)]
    rw [if_pos (show (i : Int) + 0 ≤ (i : Int) by omega)]
  have hmc : map_characters [] m = "" := rfl
  simp only [vectorizeStringStep, hsl, hmc]
  rw [if_neg (by simp)]
  rfl

/-- The `vectorize_string` loop with `k = 0` is `n` bumps of `""` starting
from the empty dict. -/
theorem vectorizeString_fold_zero {seq : List Char}
    {m : List (String × String)} :
    ∀ n : Nat, (List.range n).foldl (vectorizeStringStep seq 0 m []) [] =
      if n = 0 then [] else [("", n)]
  | 0 => rfl
  | n + 1 => by
      rw [List.range_succ, List.foldl_append, vectorizeString_fold_zero n]
      by_cases hn : n = 0
      · subst hn
        simp [vectorizeStringStep_zero]
      · rw [if_neg hn, if_neg (Nat.succ_ne_zero n)]
        simp [vectorizeStringStep_zero, List.lookup]

/-- **C8 (amended).** `vectorize_string` performs no validation of `k`: for
every `k ≤ 0` it succeeds and returns a count dict rather than raising a
designed `InvalidParameter` error.  Every loop offset passes the filters and
is counted exactly once, so the counts total `len(sequence) - k`; for
`k = 0` every window is the empty string, so the result is
`{"": len(sequence)}` on a non-empty sequence.  (For `k < 0`, the Python
negative slice stop makes an offset `i < -k` contribute the mapped window
`sequence[i : len(sequence)+i+k]`, which is `""` only when
`len(sequence) + k ≤ 0`.) -/
theorem c8_nonpositive_k_no_validation (s : String) (k : Int)
    (m : List (String × String)) (hk : k ≤ 0) :
    sumValues (vectorize_string s k m []) =
        ((s.toList.length : Int) - k).toNat ∧
      (k = 0 → 0 < s.toList.length →
        vectorize_string s k m [] = [("", s.toList.length)]) := by
  constructor
  · unfold vectorize_string
    have h := (@vectorizeString_fold_sum s.toList k m hk
      (((s.toList.length : Int) - k).toNat) [] (by simp)).2
    simpa [sumValues] using h
  · intro hk0 hs
    subst hk0
    unfold vectorize_string
    rw [vectorizeString_fold_zero]
    rw [if_neg (by omega)]
    have hn : ((s.toList.length : Int) - 0).toNat = s.toList.length := by omega
    rw [hn]

/-- Witness for the amended C8 at `s = "AB"`, `k = 0`. -/
theorem c8_nonpositive_k_no_validation_witness :
    (0 : Int) ≤ 0 ∧ 0 < "AB".toList.length ∧
      sumValues (vectorize_string "AB" 0 [("A", "A")] []) = 2 ∧
      vectorize_string "AB" 0 [("A", "A")] [] = [("", 2)] :=
  ⟨le_refl 0, by decide,
    by
      have h := (c8_nonpositive_k_no_validation "AB" 0 [("A", "A")]
        (le_refl 0)).1
      simpa using h,
    by
      have h := (c8_nonpositive_k_no_validation "AB" 0 [("A", "A")]
        (le_refl 0)).2 rfl (by decide)
      simpa using h⟩

/-! ## Helper lemmas for the scoring formula (C3) -/

namespace Snekmer

theorem zip_self_map {α β : Type} (f : α → β) :
    ∀ l : List α, l.zip (l.map f) = l.map (fun a => (a, f a))
  | [] => rfl
  | a :: t => by simp [zip_self_map f t]

theorem zipWith_map_both {α β γ δ : Type} (f : β → γ → δ) (g : α → β)
    (h : α → γ) : ∀ l : List α,
      List.zipWith f (l.map g) (l.map h) = l.map (fun a => f (g a) (h a))
  | [] => rfl
  | a :: t => by simp [zipWith_map_both f g h t]

theorem filter_over_map {α β : Type} (f : α → β) (p : β → Bool) :
    ∀ l : List α, (l.map f).filter p = (l.filter (fun a => p (f a))).map f
  | [] => rfl
  | a :: t => by
      by_cases h : p (f a) <;> simp [List.filter, h, filter_over_map f p t]

theorem sumVecs_maps {α β : Type} (M : List α) (h : β → α → ℚ) :
    ∀ os : List β, sumVecs M.length (os.map (fun O => M.map (h O))) =
      M.map (fun row => (os.map (fun O => h O row)).sum)
  | [] => by
      simp only [List.map_nil, sumVecs, List.foldr_nil, List.sum_nil]
      exact (List.map_const' M 0).symm
  | O :: os => by
      simp only [List.map_cons, sumVecs, List.foldr_cons]
      have hrec := sumVecs_maps M h os
      simp only [sumVecs] at hrec
      rw [hrec, zipWith_map_both]
      simp

theorem specPresence_cons (x : ℚ) (xs : List ℚ) (s : String) (ss : List String)
    (L : String) :
    SnekmerSpec.specPresence (x :: xs) (s :: ss) L =
      (if 0 < x ∧ s = L then 1 else 0) + SnekmerSpec.specPresence xs ss L := by
  simp only [SnekmerSpec.specPresence, List.zip_cons_cons, List.filter]
  by_cases h1 : 0 < x <;> by_cases h2 : s = L <;>
    simp [h1, h2, Nat.add_comm, List.zip]

/-- The per-row multiply-and-sum of `_kmer_presence_probability` computes
exactly the spec's presence count. -/
theorem presence_row_eq :
    ∀ (row : List ℚ) (labels : List String) (L : String),
      (((row.map (fun x => if 0 < x then (1 : ℚ) else 0)).zip
            (labels.map (fun s => decide (s = L)))).map
          (fun p => (if p.1 = 1 then (1 : ℚ) else 0) *
            (if p.2 then (1 : ℚ) else 0))).sum =
        (SnekmerSpec.specPresence row labels L : ℚ)
  | [], labels, L => by simp [SnekmerSpec.specPresence]
  | x :: xs, [], L => by simp [SnekmerSpec.specPresence]
  | x :: xs, s :: ss, L => by
      rw [specPresence_cons]
      push_cast
      simp only [List.map_cons, List.zip_cons_cons, List.sum_cons]
      rw [presence_row_eq xs ss L]
      congr 1
      by_cases h1 : 0 < x <;> by_cases h2 : s = L <;> simp [h1, h2]

end Snekmer

/-- The `presence` array of `_kmer_presence_probability` (for the label
match of `l`) is the spec's per-row presence count. -/
theorem kpp_fst (M : List (List ℚ)) (labels : List String) (l : String) (w : ℚ) :
    (_kmer_presence_probability M (labels.map (fun s => decide (s = l))) w).1 =
      M.map (fun row => (SnekmerSpec.specPresence row labels l : ℚ)) := by
  simp only [_kmer_presence_probability, _binarize, List.map_map]
  refine List.map_congr_left ?_
  intro row _
  simp only [Function.comp_apply]
  exact presence_row_eq row labels l

/-- The `probability` array of `_kmer_presence_probability` at
`weight = 1 / n_l` is the spec's per-row probability `presence / n_l`. -/
theorem kpp_snd (M : List (List ℚ)) (labels : List String) (l : String) :
    (_kmer_presence_probability M (labels.map (fun s => decide (s = l)))
        (1 / ((labels.filter (fun s => decide (s = l))).length : ℚ))).2 =
      M.map (fun row => SnekmerSpec.specProb row labels l) := by
  have h1 : (_kmer_presence_probability M (labels.map (fun s => decide (s = l)))
      (1 / ((labels.filter (fun s => decide (s = l))).length : ℚ))).2 =
      (_kmer_presence_probability M (labels.map (fun s => decide (s = l)))
        (1 / ((labels.filter (fun s => decide (s = l))).length : ℚ))).1.map
        (· * (1 / ((labels.filter (fun s => decide (s = l))).length : ℚ))) := rfl
  rw [h1, kpp_fst, List.map_map]
  refine List.map_congr_left ?_
  intro row _
  simp only [Function.comp_apply, SnekmerSpec.specProb, SnekmerSpec.specNL]
  rw [mul_one_div]

/-- **C3.** Under method `default`, `feature_class_probabilities` computes,
for every distinct label `L` and kmer row `k`,
`score_L[k] = probability_L[k] - weight * (sum over other labels O of
probability_O[k])` with `weight = 1 / (number_of_distinct_labels - 1)` and
`probability_L[k] = presence_L[k] / n_L`: the whole returned table equals
the table built directly from the spec's formulas. -/
theorem c3_default_score_formula (M : List (List ℚ)) (labels : List String)
    (hhead : (M.headD []).length = labels.length)
    (hd : 2 ≤ (npUnique labels).length) :
    feature_class_probabilities M labels .default none =
      .ok (specScoreTable M labels) := by
  have hhead' : (M.head?.getD []).length = labels.length := by
    cases M with
    | nil => simpa using hhead
    | cons a t => simpa using hhead
  simp only [feature_class_probabilities]
  rw [if_neg (by simp)]
  rw [if_neg (by simp [hhead'])]
  rw [if_neg (by omega)]
  rw [zip_self_map (fun l => (List.filter (fun s => decide (s = l)) labels).length) (npUnique labels)]
  rw [List.map_map, List.map_map]
  unfold specScoreTable
  refine congrArg Except.ok ?_
  dsimp only
  refine List.map_congr_left ?_
  intro L hL
  dsimp only [Function.comp_apply]
  refine congrArg (Prod.mk L) ?_
  rw [kpp_fst, kpp_snd]
  rw [List.map_map]
  rw [filter_over_map]
  rw [List.map_map]
  simp only [Function.comp_def]
  have hmapO :
      List.map
        (fun a => (_kmer_presence_probability M
          (List.map (fun s => decide (s = a)) labels)
          (1 / ((List.filter (fun s => decide (s = a)) labels).length : ℚ))).2)
        (List.filter (fun a => decide (a ≠ L)) (npUnique labels)) =
      List.map (fun O => M.map (fun row => specProb row labels O))
        (List.filter (fun a => decide (a ≠ L)) (npUnique labels)) :=
    List.map_congr_left (fun O _ => kpp_snd M labels O)
  rw [hmapO]
  rw [sumVecs_maps M (fun O row => specProb row labels O)
    (List.filter (fun a => decide (a ≠ L)) (npUnique labels))]
  rw [zipWith_map_both]
  congr 1
  refine List.map_congr_left ?_
  intro row _
  rw [mul_comm]

/-- Witness for C3 on the spec's §8 scoring scenario. -/
theorem c3_default_score_formula_witness :
    (([[1, 0], [0, 1]] : List (List ℚ)).headD []).length =
        (["fam", "other"] : List String).length ∧
      2 ≤ (npUnique ["fam", "other"]).length ∧
      feature_class_probabilities [[1, 0], [0, 1]] ["fam", "other"]
          .default none =
        .ok (specScoreTable [[1, 0], [0, 1]] ["fam", "other"]) :=
  ⟨by decide, by decide,
    c3_default_score_formula [[1, 0], [0, 1]] ["fam", "other"]
      (by decide) (by decide)⟩
